import Mathlib

/-!
Verification of the pintk session controller (`src/pint/pintk/pulsar.py`).

A shallow embedding of the `Pulsar` session-controller class and its
operations (`delete_TOAs`, `fit`, `add_jump`, `add_phase_wrap`,
`update_resids`) together with the random-model windowing logic, and
theorems settling the frozen claims about them.

Modelling conventions:
* The astropy TOA table is a list of records; each record carries the
  columns used by the session controller: the stable identity `index`,
  the observatory grouping key `obs`, the observing time `mjd` (a
  rational, standing for the MJD value), the per-TOA jump-flag entry
  (the set of jump ids carried by the `"jump"` flag, as a list), and the
  per-row values of the `pulse_number`, `delta_pulse_number` and
  `delta_pulse_numbers` columns.  Column *presence* (astropy
  `colnames`) is tracked by the booleans `hasPN`/`hasDPN`/`hasDPNS`;
  row operations (boolean indexing, `group_by`) carry all column values
  with the row, exactly as astropy slicing does.
* `Table.group_by("obs")` is a stable sort on the `obs` key.
* External pure collaborators are abstracted: the timing model is a
  record of the features the controller inspects (an identity tag for
  the non-jump parameters, the presence of a `PhaseJump` component, the
  list of jump-parameter ids, and a tag for the jump-stripped plotting
  copy); `Residuals(toas, model, track_mode)` is kept as the tuple of
  its inputs (it is specified as a pure function of them); the fit
  strategy `fit_toas` is a caller-supplied function that may fail
  (`Option`), and `compute_pulse_numbers` uses a caller-supplied pulse
  number function `pnOf` applied to each row's mjd.
* Machine floats of the original are modelled as rationals.
-/

namespace PintK

/-- The `Fitters` enum of `pulsar.py` (POWELL / WLS / GLS). -/
inductive Fitters where
  | powell
  | wls
  | gls
deriving DecidableEq, Repr

/-- One row of the TOA table with the columns the session controller uses.
`flags` is the set of jump ids recorded in the row's `"jump"` flag
(membership of id `n` models `str(n) in dict["jump"]`).  `pn`, `dpn`,
`dpns` are the row's values of the `pulse_number`, `delta_pulse_number`
and (misspelled) `delta_pulse_numbers` columns; they are meaningful only
when the corresponding column is present in the table. -/
structure TOARec where
  idx : Nat
  obs : Nat
  mjd : ℚ
  flags : List Nat
  pn : ℤ
  dpn : ℚ
  dpns : ℚ
deriving DecidableEq, Repr

/-- A TOA table: rows plus presence of the optional columns
`pulse_number`, `delta_pulse_number`, `delta_pulse_numbers`. -/
structure TOATable where
  rows : List TOARec
  hasPN : Bool
  hasDPN : Bool
  hasDPNS : Bool
deriving DecidableEq, Repr

/-- The features of a `pint.models` timing model that the session
controller reads or mutates: `base` tags the (abstracted) non-jump
parameter content, `hasPJ` is the presence of the `PhaseJump` component,
`jumps` is the list of jump-parameter ids present, and `stripped` tags
the jump-stripped plotting copy produced inside `fit`. -/
structure Model where
  base : Nat
  hasPJ : Bool
  jumps : List Nat
  stripped : Bool
deriving DecidableEq, Repr

/-- The residual evaluator: `Residuals(toas, model, track_mode)` is an external pure function of
its inputs; we model a residual object as the tuple of those inputs
(`track = true` models `track_mode="use_pulse_numbers"`). -/
structure Resids where
  toas : TOATable
  model : Model
  track : Bool
deriving DecidableEq, Repr

/-- The mutable state of a `Pulsar` session object (the fields of
`pulsar.py`'s `Pulsar` that the claimed operations read or write).
`fake_toas` stores the synthetic-baseline descriptor
`(start_mjd, end_mjd, npoints)` passed to `make_fake_toas_uniform`;
the random residual ensemble itself is external output and not kept. -/
structure PState where
  all_toas : TOATable
  selected_toas : TOATable
  deleted : Finset Nat
  fitterKind : Fitters
  prefit_model : Model
  postfit_model : Option Model
  prefit_resids : Resids
  postfit_resids : Option Resids
  prefit_resids_no_jumps : Option Resids
  fitted : Bool
  use_pulse_numbers : Bool
  stashed : Option TOATable
  fake_toas : Option (ℚ × ℚ × Nat)
deriving DecidableEq

/-! ## Table helpers (astropy/numpy operations used by the controller) -/

/-- The operation `toas.compute_pulse_numbers(model)`.  Modelled from the spec: the
actual computation lives in `pint.toa` (outside `src/`); §4.4 specifies
it as materializing the `pulse_number` column computed from the given
model, which we take as `pnOf model` applied to each row's mjd. -/
def computePN (pnOf : Model → ℚ → ℤ) (m : Model) (t : TOATable) : TOATable :=
  { t with hasPN := true, rows := t.rows.map (fun r => { r with pn := pnOf m r.mjd }) }

/-- The assignment `table["delta_pulse_number"] = np.zeros(ntoas)`. -/
def zeroDPN (t : TOATable) : TOATable :=
  { t with hasDPN := true, rows := t.rows.map (fun r => { r with dpn := 0 }) }

/-- The assignment `table["delta_pulse_numbers"] = np.zeros(ntoas)` (the misspelled
column written by `fit`, line 424). -/
def zeroDPNS (t : TOATable) : TOATable :=
  { t with hasDPNS := true, rows := t.rows.map (fun r => { r with dpns := 0 }) }

/-- The `del_inds` boolean vector of `Pulsar._delete_TOAs`: row `i` is
marked iff its `index` is in the deleted set and no *earlier* row has
the same `index` (the loop marks `di[0]`, the first matching position,
for each deleted index).  `seen` accumulates indices of earlier rows. -/
def delMask (del : Finset Nat) : List TOARec → List Nat → List Bool
  | [], _ => []
  | r :: rs, seen =>
      (decide (r.idx ∈ del) && !(seen.contains r.idx)) :: delMask del rs (r.idx :: seen)

/-- The slice `toa_table[~del_inds]`: keep the rows whose mark is `false`. -/
def keepUnmarked : List TOARec → List Bool → List TOARec
  | [], _ => []
  | _ :: _, [] => []
  | r :: rs, b :: bs => if b then keepUnmarked rs bs else r :: keepUnmarked rs bs

/-- The slice `table[selected]` for a boolean mask: keep the rows whose mark is
`true`. -/
def keepMarked : List TOARec → List Bool → List TOARec
  | [], _ => []
  | _ :: _, [] => []
  | r :: rs, b :: bs => if b then r :: keepMarked rs bs else keepMarked rs bs

/-- Stable insertion of a row into a list sorted by the `obs` key. -/
def insertObs (r : TOARec) : List TOARec → List TOARec
  | [] => [r]
  | y :: ys => if r.obs ≤ y.obs then r :: y :: ys else y :: insertObs r ys

/-- The regrouping `table.group_by("obs")`: a stable sort of the rows on the
observatory grouping key. -/
def sortByObs : List TOARec → List TOARec
  | [] => []
  | x :: xs => insertObs x (sortByObs xs)

/-- The count `del_inds.sum()`. -/
def countMarked (bs : List Bool) : Nat := (bs.filter id).length

/-- The helper `Pulsar._delete_TOAs(toa_table)` (lines 160-171): mark the first
occurrence of every deleted index, and if any row survives return the
surviving rows regrouped by observatory, else `None`.  (The
`toa_table.group_by("index")` call on line 161 discards its result and
is a no-op.) -/
def delTable (del : Finset Nat) (t : TOATable) : Option TOATable :=
  let del_inds := delMask del t.rows []
  if countMarked del_inds < t.rows.length then
    some { t with rows := sortByObs (keepUnmarked t.rows del_inds) }
  else
    none

/-- The operation `Pulsar.delete_TOAs(indices, selected)` (lines 173-198).  Returns
`none` where the Python would raise (deleting every TOA leaves
`all_toas.table` as `None`, and the subsequent attribute accesses
fail; likewise the `zip` on line 190 needs the `selected` mask).  The
second component of the result is the returned mask. -/
def delete_TOAs (indices : List Nat) (selected : Option (List Bool)) (s : PState) :
    Option (PState × List Bool) :=
  let deleted' := s.deleted ∪ indices.toFinset
  -- `if selected is not None: selected_toas.table = _delete_TOAs(...)`
  let selTab : Option TOATable :=
    match selected with
    | some _ => delTable deleted' s.selected_toas
    | none => some s.selected_toas
  match delTable deleted' s.all_toas with
  | none => none
  | some allTab =>
    -- `if self.stashed: self.stashed.table = self._delete_TOAs(...)`
    let stash' := s.stashed.bind (fun t => delTable deleted' t)
    match selTab with
    | none =>
        -- all selected TOAs were deleted: reset to the full set
        let sel' : List Bool := List.replicate allTab.rows.length false
        some ({ s with all_toas := allTab, selected_toas := allTab,
                       deleted := deleted', stashed := stash' }, sel')
    | some _ =>
        match selected with
        | none => none
        | some sel =>
          -- `[sel for idx, sel in zip(self.all_toas.table["index"], selected)
          --   if idx not in indices]`
          let newsel : List Bool :=
            (allTab.rows.zip sel).filterMap
              (fun p => if p.1.idx ∈ indices then none else some p.2)
          some ({ s with all_toas := allTab,
                         selected_toas := { allTab with rows := keepMarked allTab.rows newsel },
                         deleted := deleted', stashed := stash' }, newsel)

/-! ## Residual updates and phase wraps -/

/-- The operation `Pulsar.update_resids` (lines 200-209): recompute the pre-fit (and
when fitted the post-fit) residuals over `all_toas`, with
`track_mode="use_pulse_numbers"` iff pulse-number tracking is on. -/
def update_resids (s : PState) : PState :=
  let tm := s.use_pulse_numbers
  let pre := Resids.mk s.all_toas s.prefit_model tm
  if s.fitted then
    { s with prefit_resids := pre,
             postfit_resids := some (Resids.mk s.all_toas (s.postfit_model.getD s.prefit_model) tm) }
  else
    { s with prefit_resids := pre }

/-- The operation `Pulsar.add_phase_wrap(selected, phase)` (lines 293-325): lazily
materialize the `pulse_number` column (from the post-fit model when
fitted, else the pre-fit model) and a zeroed `delta_pulse_number`
column on both tables, add `phase` to `delta_pulse_number` at the
mask's `true` positions of the full table, switch pulse-number
tracking on, and recompute residuals. -/
def add_phase_wrap (pnOf : Model → ℚ → ℤ) (selected : List Bool) (phase : ℚ)
    (s : PState) : PState :=
  let s :=
    if !s.all_toas.hasPN || !s.selected_toas.hasPN then
      let m := if s.fitted then s.postfit_model.getD s.prefit_model else s.prefit_model
      { s with all_toas := computePN pnOf m s.all_toas,
               selected_toas := computePN pnOf m s.selected_toas }
    else s
  let s :=
    if !s.all_toas.hasDPN || !s.selected_toas.hasDPN then
      { s with all_toas := zeroDPN s.all_toas, selected_toas := zeroDPN s.selected_toas }
    else s
  -- `self.all_toas.table["delta_pulse_number"][selected] += phase`
  let allT := { s.all_toas with
    rows := List.zipWith (fun r b => if b then { r with dpn := r.dpn + phase } else r)
      s.all_toas.rows selected }
  update_resids { s with all_toas := allT, use_pulse_numbers := true }

/-! ## Jump bookkeeping -/

/-- The boolean membership vector of jump `num` (lines 357-360):
`"jump" in dict.keys() and str(num) in dict["jump"]` for each row. -/
def toasJumped (num : Nat) (rows : List TOARec) : List Bool :=
  rows.map (fun r => decide (num ∈ r.flags))

/-- The lowest positive jump id not yet used by the model. -/
def lowestUnused (js : List Nat) : Nat :=
  match (List.range' 1 (js.length + 1)).find? (fun k => decide (k ∉ js)) with
  | some k => k
  | none => js.length + 1

/-- The operation `model.add_jump_and_flags(flags[selected])`.  Modelled from the
spec: the operation lives in `pint.models` (outside `src/`); §4.3
specifies that a new jump id is allocated as the lowest unused positive
integer, the selected TOAs receive that id in their jump-flag set, and
a corresponding new jump parameter is added to the model. -/
def add_jump_and_flags (m : Model) (rows : List TOARec) (selected : List Bool) :
    Model × List TOARec :=
  let k := lowestUnused m.jumps
  ({ m with jumps := m.jumps ++ [k] },
   List.zipWith (fun r b => if b then { r with flags := r.flags ++ [k] } else r)
     rows selected)

/-- The operation `model.delete_jump_and_flags(flags, num)`.  Modelled from the spec:
the operation lives in `pint.models` (outside `src/`); §4.3 specifies
that the matched jump is deleted — its parameter removed and its
membership flags cleared (surviving ids are not renumbered: §3 states
compactness after deletion is not guaranteed). -/
def delete_jump_and_flags (m : Model) (rows : List TOARec) (num : Nat) :
    Model × List TOARec :=
  ({ m with jumps := m.jumps.filter (fun j => j ≠ num) },
   rows.map (fun r => { r with flags := r.flags.filter (fun f => f ≠ num) }))

/-- The operation `Pulsar.add_jump(selected)` (lines 327-388).  The three branches of
the source: no `PhaseJump` component yet (create it and register the
selection as jump 1); an exact membership match among jump ids
`1..numjumps` (delete that jump); otherwise add a new jump.  When
fitted, the post-fit model's jump component is mirrored; its parameter
*values* are abstracted, so the mirror updates only the structural
fields. -/
def add_jump (selected : List Bool) (s : PState) : PState :=
  if s.prefit_model.hasPJ = false then
    let m0 := { s.prefit_model with hasPJ := true }
    let p := add_jump_and_flags m0 s.all_toas.rows selected
    let post' := if s.fitted then s.postfit_model.map (fun pm => { pm with hasPJ := true })
                 else s.postfit_model
    { s with prefit_model := p.1, all_toas := { s.all_toas with rows := p.2 },
             postfit_model := post' }
  else
    let numjumps := s.prefit_model.jumps.length
    if numjumps = 0 then
      -- `log.warning(...); return None` — state unchanged
      s
    else
      match (List.range' 1 numjumps).find?
          (fun num => toasJumped num s.all_toas.rows == selected) with
      | some num =>
          let p := delete_jump_and_flags s.prefit_model s.all_toas.rows num
          let post' := if s.fitted then
              s.postfit_model.map (fun pm => (delete_jump_and_flags pm [] num).1)
            else s.postfit_model
          { s with prefit_model := p.1, all_toas := { s.all_toas with rows := p.2 },
                   postfit_model := post' }
      | none =>
          let p := add_jump_and_flags s.prefit_model s.all_toas.rows selected
          let post' := if s.fitted then
              s.postfit_model.map
                (fun pm => { pm with jumps := pm.jumps ++ [lowestUnused s.prefit_model.jumps] })
            else s.postfit_model
          { s with prefit_model := p.1, all_toas := { s.all_toas with rows := p.2 },
                   postfit_model := post' }

/-! ## Fit orchestration -/

/-- The promotion of lines 398-400: when already fitted, the previous
post-fit model and residuals become the new pre-fit pair *before* the
fit strategy is invoked. -/
def promote (s : PState) : PState :=
  if s.fitted then
    { s with prefit_model := s.postfit_model.getD s.prefit_model,
             prefit_resids := s.postfit_resids.getD s.prefit_resids }
  else s

/-- The jump-stripped copy of the pre-fit model (lines 437-441): every
`JUMP` parameter value forced to zero and frozen, used only for the
no-jumps residual view (parameter values are abstracted into the
`stripped` tag). -/
def stripJumps (m : Model) : Model := { m with stripped := true }

/-- The regime-threshold table of lines 468-482: selected-data span (in
days) determines the edge-extension factor and the synthetic point
count. -/
def regimeEdges (span : ℚ) : ℚ × Nat :=
  if span < 30 then (4, 400)
  else if span < 90 then (2, 300)
  else if span < 200 then (1, 300)
  else if span < 400 then (1/2, 200)
  else (1, 250)

/-- The forward-extension cap of lines 483-487: if the extended
baseline would pass `now - 40` days, shrink the right edge factor to
reach exactly `now - 40`, clamped at zero. -/
def capRedge (nowMJD maxMJD span redge : ℚ) : ℚ :=
  let nowish := nowMJD - 40
  if maxMJD + span * redge > nowish then max ((nowish - maxMJD) / span) 0 else redge

/-- The operation `Pulsar.fit(selected, iters=1, compute_random=False)` (lines
390-505).  `strat` is the external fit strategy (`fit_toas` +
`.model`), which may fail; a raised fit-strategy error propagates as
`Except.error` carrying the session state at the raise.  The
random-model branch is embedded up to the synthetic-baseline
descriptor stored in `fake_toas`; the ensemble drawing
(`calculate_random_models`) and the baseline-offset mean `rs_mean`
(lines 449-461) are external computations whose outputs the session
only forwards to plotting, and are not modelled.  `min()`/`max()` of an
empty selected set raise, giving the `Except.error` at that point. -/
def fit (strat : Fitters → TOATable → Model → Option Model) (pnOf : Model → ℚ → ℤ)
    (nowMJD : ℚ) (compute_random : Bool) (selected : List Bool) (s : PState) :
    Except PState PState :=
  -- `if not any(selected): selected = ~selected` — the local is not
  -- read again afterwards (the fit uses `self.selected_toas`).
  let _selected := if selected.any (fun b => b) then selected else selected.map (fun b => !b)
  let s1 := promote s
  match strat s1.fitterKind s1.selected_toas s1.prefit_model with
  | none => Except.error s1
  | some m =>
    let s2 := { s1 with postfit_model := some m, fitted := true }
    -- lines 423-430: zero the misspelled full-set column and the
    -- selected-set `delta_pulse_number`, then recompute pulse numbers
    let allT := computePN pnOf m (zeroDPNS s2.all_toas)
    let selT := computePN pnOf m (zeroDPN s2.selected_toas)
    let s3 := { s2 with
      all_toas := allT,
      selected_toas := selT,
      postfit_resids := some (Resids.mk allT m false),
      prefit_resids_no_jumps := some (Resids.mk allT (stripJumps s1.prefit_model) false) }
    if compute_random then
      match (selT.rows.map TOARec.mjd).min?, (selT.rows.map TOARec.mjd).max? with
      | some minMJD, some maxMJD =>
        let span := maxMJD - minMJD
        let e := regimeEdges span
        let ledge := e.1
        let npoints := e.2
        let redge := capRedge nowMJD maxMJD span e.1
        Except.ok { s3 with
          fake_toas := some (minMJD - span * ledge, maxMJD + span * redge, npoints) }
      | _, _ => Except.error s3
    else
      Except.ok s3

/-! ## Session operations as a single step type (for session-long
invariants such as the stickiness of pulse-number tracking) -/

/-- One user-facing session operation (§2's control flow: delete, add
jump, add phase wrap, fit, residual refresh). -/
inductive SessionOp where
  | del (indices : List Nat) (sel : Option (List Bool))
  | jump (sel : List Bool)
  | wrap (pnOf : Model → ℚ → ℤ) (sel : List Bool) (c : ℚ)
  | dofit (strat : Fitters → TOATable → Model → Option Model)
      (pnOf : Model → ℚ → ℤ) (now : ℚ) (cr : Bool) (sel : List Bool)
  | updres

/-- Apply one session operation; a raising operation leaves the session
at the state it had reached when the exception propagated. -/
def applyOp (s : PState) : SessionOp → PState
  | .del inds sel =>
      match delete_TOAs inds sel s with
      | some p => p.1
      | none => s
  | .jump sel => add_jump sel s
  | .wrap pnOf sel c => add_phase_wrap pnOf sel c s
  | .dofit strat pnOf now cr sel =>
      match fit strat pnOf now cr sel s with
      | .ok t => t
      | .error t => t
  | .updres => update_resids s

/-! ## Spec-side description of the regime table (for the refinement
claim about the thresholds) -/

/-- The spec's ordered lookup table for the synthetic-baseline regime:
breakpoints (in days) paired with (edge-extension factor, point
count). -/
def regimeTable : List (ℚ × (ℚ × Nat)) :=
  [(30, (4, 400)), (90, (2, 300)), (200, (1, 300)), (400, (1/2, 200))]

/-- Spec-side lookup: the first breakpoint strictly greater than the
span determines the parameters, with default `(1.0, 250)`. -/
def regimeLookup (span : ℚ) : ℚ × Nat :=
  match regimeTable.find? (fun p => decide (span < p.1)) with
  | some p => p.2
  | none => (1, 250)

/-! ## Concrete session states used by witnesses and counterexamples -/

/-- A TOA record with given index, observatory, mjd and flags, and zero
pulse-number columns. -/
def mkRec (i o : Nat) (m : ℚ) (fl : List Nat) : TOARec :=
  { idx := i, obs := o, mjd := m, flags := fl, pn := 0, dpn := 0, dpns := 0 }

/-- A table of the given rows with no optional columns materialized. -/
def mkTable (rs : List TOARec) : TOATable :=
  { rows := rs, hasPN := false, hasDPN := false, hasDPNS := false }

/-- A model with no jump component. -/
def mkModel (b : Nat) : Model :=
  { base := b, hasPJ := false, jumps := [], stripped := false }

/-- A freshly loaded session over the given table: full set = selected
set, nothing deleted, unfitted, WLS fitter. -/
def mkState (t : TOATable) : PState :=
  { all_toas := t, selected_toas := t, deleted := ∅, fitterKind := Fitters.wls,
    prefit_model := mkModel 0, postfit_model := none,
    prefit_resids := Resids.mk t (mkModel 0) false, postfit_resids := none,
    prefit_resids_no_jumps := none, fitted := false, use_pulse_numbers := false,
    stashed := none, fake_toas := none }

/-- The constant-success fit strategy used by witnesses. -/
def stratId : Fitters → TOATable → Model → Option Model := fun _ _ m => some m

/-- The always-failing fit strategy used for the failure claims. -/
def stratFail : Fitters → TOATable → Model → Option Model := fun _ _ _ => none

/-- The zero pulse-number function used by witnesses. -/
def pnZero : Model → ℚ → ℤ := fun _ _ => 0

/-- Ten TOAs, indices 0-9, one observatory. -/
def tenToas : TOATable := mkTable ((List.range 10).map (fun i => mkRec i 0 i []))

/-- A session that has already been fitted once, with distinguishable
pre- and post-fit models. -/
def c1State : PState :=
  { mkState tenToas with
    fitted := true,
    prefit_model := mkModel 1,
    postfit_model := some (mkModel 2),
    postfit_resids := some (Resids.mk tenToas (mkModel 2) false) }

/-- Two TOAs whose span is 20 days and whose latest arrival (MJD 970)
is inside the 40-day ephemeris guard of `now = 1000`. -/
def recentToas : TOATable := mkTable [mkRec 0 0 950 [], mkRec 1 0 970 []]

/-! # Theorems -/

/-! ## Basic facts about `promote`, the table column operations and
`update_resids` -/

theorem promote_all_toas (s : PState) : (promote s).all_toas = s.all_toas := by
  unfold promote; split <;> rfl

theorem promote_selected_toas (s : PState) : (promote s).selected_toas = s.selected_toas := by
  unfold promote; split <;> rfl

theorem promote_upn (s : PState) : (promote s).use_pulse_numbers = s.use_pulse_numbers := by
  unfold promote; split <;> rfl

theorem promote_fitted (s : PState) : (promote s).fitted = s.fitted := by
  unfold promote; split <;> rfl

theorem promote_postfit_model (s : PState) : (promote s).postfit_model = s.postfit_model := by
  unfold promote; split <;> rfl

theorem promote_postfit_resids (s : PState) : (promote s).postfit_resids = s.postfit_resids := by
  unfold promote; split <;> rfl

theorem promote_deleted (s : PState) : (promote s).deleted = s.deleted := by
  unfold promote; split <;> rfl

theorem promote_prefit_model (s : PState) :
    (promote s).prefit_model
      = (if s.fitted then s.postfit_model.getD s.prefit_model else s.prefit_model) := by
  unfold promote; split <;> simp_all

theorem computePN_dpn (pnOf : Model → ℚ → ℤ) (m : Model) (t : TOATable) :
    (computePN pnOf m t).rows.map TOARec.dpn = t.rows.map TOARec.dpn := by
  simp [computePN, List.map_map, Function.comp]

theorem computePN_dpns (pnOf : Model → ℚ → ℤ) (m : Model) (t : TOATable) :
    (computePN pnOf m t).rows.map TOARec.dpns = t.rows.map TOARec.dpns := by
  simp [computePN, List.map_map, Function.comp]

theorem computePN_hasDPN (pnOf : Model → ℚ → ℤ) (m : Model) (t : TOATable) :
    (computePN pnOf m t).hasDPN = t.hasDPN := rfl

theorem computePN_hasDPNS (pnOf : Model → ℚ → ℤ) (m : Model) (t : TOATable) :
    (computePN pnOf m t).hasDPNS = t.hasDPNS := rfl

theorem zeroDPN_dpn (t : TOATable) (r : TOARec) (hr : r ∈ (zeroDPN t).rows) :
    r.dpn = 0 := by
  simp only [zeroDPN, List.mem_map] at hr
  obtain ⟨a, -, rfl⟩ := hr
  rfl

theorem zeroDPNS_dpns (t : TOATable) (r : TOARec) (hr : r ∈ (zeroDPNS t).rows) :
    r.dpns = 0 := by
  simp only [zeroDPNS, List.mem_map] at hr
  obtain ⟨a, -, rfl⟩ := hr
  rfl

theorem zeroDPNS_dpn (t : TOATable) :
    (zeroDPNS t).rows.map TOARec.dpn = t.rows.map TOARec.dpn := by
  simp [zeroDPNS, List.map_map, Function.comp]

theorem update_resids_prefit (s : PState) :
    (update_resids s).prefit_resids = Resids.mk s.all_toas s.prefit_model s.use_pulse_numbers := by
  unfold update_resids; split <;> rfl

theorem update_resids_upn (s : PState) :
    (update_resids s).use_pulse_numbers = s.use_pulse_numbers := by
  unfold update_resids; split <;> rfl

/-! ## Claim C3 — an all-`False` selection mask behaves like all-`True`

Lines 395-396 flip an all-`False` mask to all-`True`, and the rest of
`fit` never reads the local `selected` again (the fit runs on
`self.selected_toas` and residuals on `self.all_toas`), so a fit called
with the all-`False` mask produces exactly the state — fit result and
residuals included — of a fit called with the explicit all-`True`
mask. -/

/-- C3: `fit` with an all-`False` selection mask returns the same
session state (same fitted model, same residuals over the full TOA
set) as `fit` with an explicit all-`True` mask of the same length. -/
theorem claim_C3 (strat : Fitters → TOATable → Model → Option Model)
    (pnOf : Model → ℚ → ℤ) (nowMJD : ℚ) (cr : Bool) (L : Nat) (s : PState) :
    fit strat pnOf nowMJD cr (List.replicate L false) s
      = fit strat pnOf nowMJD cr (List.replicate L true) s := rfl

/-! ## Claim C7 — the regime-threshold table -/

/-- C7: the edge-extension/point-count computation of lines 468-482
agrees with the spec's ordered threshold table at every span; a 20-day
span selects factor 4 and 400 points; and the left and right factors
are equal unless the forward cap of lines 483-487 fires. -/
theorem claim_C7 :
    (∀ span : ℚ, regimeEdges span = regimeLookup span)
    ∧ regimeEdges 20 = (4, 400)
    ∧ (∀ nowMJD maxMJD span e : ℚ, maxMJD + span * e ≤ nowMJD - 40 →
        capRedge nowMJD maxMJD span e = e) := by
  refine ⟨?_, by norm_num [regimeEdges], ?_⟩
  · intro span
    unfold regimeEdges regimeLookup regimeTable
    by_cases h1 : span < 30
    · simp [h1]
    · by_cases h2 : span < 90
      · simp [h1, h2]
      · by_cases h3 : span < 200
        · simp [h1, h2, h3]
        · by_cases h4 : span < 400
          · simp [h1, h2, h3, h4]
          · simp [h1, h2, h3, h4]
  · intro nowMJD maxMJD span e h
    unfold capRedge
    rw [if_neg (not_lt.mpr h)]

/-- Witness for C7 at concrete inputs: the lookup agreement at a 20-day
span and the uncapped case at a safely old dataset. -/
theorem claim_C7_witness :
    regimeEdges 20 = regimeLookup 20 ∧ capRedge 1000 100 20 4 = 4 :=
  ⟨claim_C7.1 20, claim_C7.2.2 1000 100 20 4 (by norm_num)⟩

/-! ## Claim C8 — the forward-extension cap

The cap of lines 483-487 clamps the right-edge factor to be
non-negative, but it does *not* keep the synthetic baseline's upper
endpoint below `now - 40` when the real data itself extends past
`now - 40`: the clamped factor is `0` and the endpoint is `maxMJD`
itself.  Counterexample: `now = 1000` (so `nowish = 960`), selected
data at MJD 950 and 970; the 20-day span selects `redge = 4`,
`970 + 20·4 > 960` fires the cap, `(960-970)/20` is negative and is
clamped to `0`, leaving the endpoint at `970 > 960`. -/

/-- Counterexample to C8 as stated: a `fit(compute_random=True)` call
whose synthetic baseline (the `fake_toas` descriptor) ends at MJD 970,
past `now - 40 = 960`. -/
theorem claim_C8_cex :
    (match fit stratId pnZero 1000 true [true, true] (mkState recentToas) with
     | Except.ok t => t.fake_toas
     | Except.error _ => none) = some (870, 970, 400)
    ∧ ¬ ((970 : ℚ) ≤ 1000 - 40) := by
  constructor
  · simp only [fit, promote, mkState, recentToas, mkTable, mkRec, stratId, pnZero,
      computePN, zeroDPN, zeroDPNS, stripJumps, List.map, List.min?, List.max?,
      List.foldl, List.any, Bool.or_false]
    norm_num [regimeEdges, capRedge, min_def, max_def]
  · norm_num

/-- C8 amended: the forward extension factor is clamped to be
non-negative, and the baseline's upper endpoint never exceeds
`max (now - 40) max_real_time`; in particular it is at most `now - 40`
whenever the real data itself ends on or before `now - 40`. -/
theorem claim_C8 (nowMJD maxMJD span redge : ℚ) (hspan : 0 ≤ span) (hredge : 0 ≤ redge) :
    0 ≤ capRedge nowMJD maxMJD span redge
    ∧ maxMJD + span * capRedge nowMJD maxMJD span redge ≤ max (nowMJD - 40) maxMJD
    ∧ (maxMJD ≤ nowMJD - 40 →
        maxMJD + span * capRedge nowMJD maxMJD span redge ≤ nowMJD - 40) := by
  unfold capRedge
  by_cases hcap : maxMJD + span * redge > nowMJD - 40
  · rw [if_pos hcap]
    refine ⟨le_max_right _ _, ?_, ?_⟩
    · rcases eq_or_lt_of_le hspan with hz | hpos
      · simp [← hz]
      · rw [mul_max_of_nonneg _ _ hspan, mul_div_cancel₀ _ (ne_of_gt hpos), mul_zero]
        rw [← max_add_add_left, add_zero, add_sub_cancel]
    · intro hold
      rcases eq_or_lt_of_le hspan with hz | hpos
      · rw [← hz] at hcap
        simp at hcap
        exact absurd hold (not_le.mpr hcap)
      · rw [mul_max_of_nonneg _ _ hspan, mul_div_cancel₀ _ (ne_of_gt hpos), mul_zero]
        rw [← max_add_add_left, add_zero, add_sub_cancel]
        exact max_le (le_refl _) hold
  · rw [if_neg hcap]
    have h := not_lt.mp hcap
    exact ⟨hredge, le_trans h (le_max_left _ _), fun _ => h⟩

/-- Witness for the amended C8 at the counterexample's numbers: the
clamped factor is non-negative and the endpoint stays below
`max (now - 40) maxMJD = 970`. -/
theorem claim_C8_witness :
    0 ≤ capRedge 1000 970 20 4
    ∧ 970 + 20 * capRedge 1000 970 20 4 ≤ max (1000 - 40 : ℚ) 970 :=
  ⟨(claim_C8 1000 970 20 4 (by norm_num) (by norm_num)).1,
   (claim_C8 1000 970 20 4 (by norm_num) (by norm_num)).2.1⟩

/-! ## Claim C1 — fit-strategy failure and session state

`fit` promotes the previous post-fit model and residuals into the
pre-fit slots (lines 398-400) *before* invoking the fit strategy (line
419) and keeps no rollback copy, so when `fit_toas` raises on an
already-fitted session the error propagates with the pre-fit pair
already overwritten.  Everything written after the `fit_toas` call
(fitted flag, post-fit model, pulse-number columns, residuals) is
still untouched. -/

/-- Counterexample to C1 as stated: an already-fitted session whose fit
strategy fails.  The error propagates, but the authoritative pre-fit
model at the raise differs from its pre-attempt value (it has been
overwritten by the promoted post-fit model). -/
theorem claim_C1_cex :
    fit stratFail pnZero 1000 false [true] c1State = Except.error (promote c1State)
    ∧ (promote c1State).prefit_model ≠ c1State.prefit_model := by
  constructor
  · rfl
  · decide

/-- C1 amended: if the fit strategy fails, the error propagates to the
caller and no post-fit-call mutation has happened — the fitted flag,
both TOA tables (hence the pulse-number columns), the post-fit
model/residuals and the deleted set equal their pre-attempt values —
but the step-2 promotion has already been committed: at the raise the
pre-fit model/residuals hold the pre-attempt *post-fit* values when the
session was already fitted (the promotion is not guarded or rolled
back). -/
theorem claim_C1 (strat : Fitters → TOATable → Model → Option Model)
    (pnOf : Model → ℚ → ℤ) (nowMJD : ℚ) (cr : Bool) (sel : List Bool) (s : PState)
    (hfail : strat (promote s).fitterKind (promote s).selected_toas (promote s).prefit_model
      = none) :
    fit strat pnOf nowMJD cr sel s = Except.error (promote s)
    ∧ (promote s).fitted = s.fitted
    ∧ (promote s).all_toas = s.all_toas
    ∧ (promote s).selected_toas = s.selected_toas
    ∧ (promote s).postfit_model = s.postfit_model
    ∧ (promote s).postfit_resids = s.postfit_resids
    ∧ (promote s).deleted = s.deleted
    ∧ (promote s).use_pulse_numbers = s.use_pulse_numbers
    ∧ (promote s).prefit_model
        = (if s.fitted then s.postfit_model.getD s.prefit_model else s.prefit_model) := by
  refine ⟨?_, promote_fitted s, promote_all_toas s, promote_selected_toas s,
    promote_postfit_model s, promote_postfit_resids s, promote_deleted s,
    promote_upn s, promote_prefit_model s⟩
  simp only [fit, hfail]

/-- Witness for the amended C1 at the concrete already-fitted session:
the failing fit call returns the error state with the promotion
committed and the fitted flag untouched. -/
theorem claim_C1_witness :
    fit stratFail pnZero 1000 false [true] c1State = Except.error (promote c1State)
    ∧ (promote c1State).fitted = c1State.fitted :=
  ⟨(claim_C1 stratFail pnZero 1000 false [true] c1State rfl).1,
   (claim_C1 stratFail pnZero 1000 false [true] c1State rfl).2.1⟩

/-! ## Claim C10 — the misspelled `delta_pulse_numbers` zeroing

In a successful `fit`, line 425 zeroes the selected set's
`delta_pulse_number` column, but line 424 writes its zeros into a
column named `delta_pulse_numbers` on the full set, so the full set's
`delta_pulse_number` values survive the fit and are still what a
subsequent `update_resids` hands to the residual evaluator. -/

/-- C10: after a successful `fit`, every selected-set
`delta_pulse_number` entry is zero, while the full set's
`delta_pulse_number` column (presence and values) is unchanged — the
zeros went to the differently named `delta_pulse_numbers` column — and
the next residual recomputation passes the full table, with its
untouched `delta_pulse_number` values, to the residual evaluator with
the session's pulse-number tracking mode. -/
theorem claim_C10 (strat : Fitters → TOATable → Model → Option Model)
    (pnOf : Model → ℚ → ℤ) (nowMJD : ℚ) (cr : Bool) (sel : List Bool)
    (s s' : PState) (hok : fit strat pnOf nowMJD cr sel s = Except.ok s') :
    (s'.selected_toas.hasDPN = true ∧ ∀ r ∈ s'.selected_toas.rows, r.dpn = 0)
    ∧ (s'.all_toas.hasDPN = s.all_toas.hasDPN
       ∧ s'.all_toas.rows.map TOARec.dpn = s.all_toas.rows.map TOARec.dpn)
    ∧ (s'.all_toas.hasDPNS = true ∧ ∀ r ∈ s'.all_toas.rows, r.dpns = 0)
    ∧ s'.use_pulse_numbers = s.use_pulse_numbers
    ∧ (update_resids s').prefit_resids
        = Resids.mk s'.all_toas s'.prefit_model s.use_pulse_numbers := by
  rcases hm : strat (promote s).fitterKind (promote s).selected_toas (promote s).prefit_model
    with - | m
  · rw [fit, hm] at hok
    exact absurd hok (by simp)
  · have hsplit :
        s' = { promote s with
                postfit_model := some m, fitted := true,
                all_toas := computePN pnOf m (zeroDPNS (promote s).all_toas),
                selected_toas := computePN pnOf m (zeroDPN (promote s).selected_toas),
                postfit_resids :=
                  some (Resids.mk (computePN pnOf m (zeroDPNS (promote s).all_toas)) m false),
                prefit_resids_no_jumps :=
                  some (Resids.mk (computePN pnOf m (zeroDPNS (promote s).all_toas))
                    (stripJumps (promote s).prefit_model) false) }
        ∨ ∃ ft, s' = { promote s with
                postfit_model := some m, fitted := true,
                all_toas := computePN pnOf m (zeroDPNS (promote s).all_toas),
                selected_toas := computePN pnOf m (zeroDPN (promote s).selected_toas),
                postfit_resids :=
                  some (Resids.mk (computePN pnOf m (zeroDPNS (promote s).all_toas)) m false),
                prefit_resids_no_jumps :=
                  some (Resids.mk (computePN pnOf m (zeroDPNS (promote s).all_toas))
                    (stripJumps (promote s).prefit_model) false),
                fake_toas := some ft } := by
      rw [fit, hm] at hok
      rcases cr with - | -
      · simp only [Bool.false_eq_true, if_false] at hok
        exact Or.inl (by cases hok; rfl)
      · simp only [if_true] at hok
        rcases hmin : ((computePN pnOf m (zeroDPN (promote s).selected_toas)).rows.map
            TOARec.mjd).min? with - | mn
        · rw [hmin] at hok
          exact absurd hok (by simp)
        · rcases hmax : ((computePN pnOf m (zeroDPN (promote s).selected_toas)).rows.map
              TOARec.mjd).max? with - | mx
          · rw [hmin, hmax] at hok
            exact absurd hok (by simp)
          · rw [hmin, hmax] at hok
            exact Or.inr ⟨_, by cases hok; rfl⟩
    have hsel : s'.selected_toas = computePN pnOf m (zeroDPN (promote s).selected_toas) := by
      rcases hsplit with h | ⟨ft, h⟩ <;> rw [h]
    have hall : s'.all_toas = computePN pnOf m (zeroDPNS (promote s).all_toas) := by
      rcases hsplit with h | ⟨ft, h⟩ <;> rw [h]
    have hupn : s'.use_pulse_numbers = s.use_pulse_numbers := by
      rcases hsplit with h | ⟨ft, h⟩ <;> rw [h] <;> exact promote_upn s
    refine ⟨⟨?_, ?_⟩, ⟨?_, ?_⟩, ⟨?_, ?_⟩, hupn, ?_⟩
    · rw [hsel]; rfl
    · intro r hr
      rw [hsel] at hr
      simp only [computePN, List.mem_map] at hr
      obtain ⟨a, ha, rfl⟩ := hr
      exact zeroDPN_dpn _ a ha
    · rw [hall, computePN_hasDPN]
      show (promote s).all_toas.hasDPN = s.all_toas.hasDPN
      rw [promote_all_toas]
    · rw [hall, computePN_dpn, zeroDPNS_dpn, promote_all_toas]
    · rw [hall]; rfl
    · intro r hr
      rw [hall] at hr
      simp only [computePN, List.mem_map] at hr
      obtain ⟨a, ha, rfl⟩ := hr
      exact zeroDPNS_dpns _ a ha
    · rw [update_resids_prefit, hupn]

/-- The successful fit of the witness session for C10, extracted so the
hypothesis of the claim theorem can be discharged by `rfl`. -/
def c10Out : PState :=
  match fit stratId pnZero 1000 false [true] (mkState tenToas) with
  | Except.ok t => t
  | Except.error t => t

/-- Witness for C10 at a concrete successful fit: the full set's
`delta_pulse_number` column is untouched while the misspelled column
now exists. -/
theorem claim_C10_witness :
    (c10Out.all_toas.hasDPN = (mkState tenToas).all_toas.hasDPN
     ∧ c10Out.all_toas.rows.map TOARec.dpn
        = (mkState tenToas).all_toas.rows.map TOARec.dpn)
    ∧ c10Out.all_toas.hasDPNS = true :=
  ⟨(claim_C10 stratId pnZero 1000 false [true] (mkState tenToas) c10Out rfl).2.1,
   (claim_C10 stratId pnZero 1000 false [true] (mkState tenToas) c10Out rfl).2.2.1.1⟩

/-! ## The deletion machinery: list lemmas -/

/-- The session invariant used by the deletion claims: both tables are
grouped (sorted) by observatory and carry pairwise-distinct TOA
indices, as `get_TOAs` guarantees on load. -/
def TInv (s : PState) : Prop :=
  s.all_toas.rows.Pairwise (fun a b => a.obs ≤ b.obs)
  ∧ s.selected_toas.rows.Pairwise (fun a b => a.obs ≤ b.obs)
  ∧ (s.all_toas.rows.map TOARec.idx).Nodup
  ∧ (s.selected_toas.rows.map TOARec.idx).Nodup

theorem delMask_eq_map (del : Finset Nat) :
    ∀ (rows : List TOARec) (seen : List Nat),
      (rows.map TOARec.idx).Nodup → (∀ r ∈ rows, r.idx ∉ seen) →
      delMask del rows seen = rows.map (fun r => decide (r.idx ∈ del)) := by
  intro rows
  induction rows with
  | nil => intro seen _ _; rfl
  | cons r rs ih =>
    intro seen hn hseen
    simp only [List.map_cons, List.nodup_cons, List.mem_map] at hn
    have hcontains : seen.contains r.idx = false := by
      simp only [List.contains_eq_any_beq]
      simp [List.any_eq_false]
      intro x hx hbe
      exact absurd (hbe ▸ hx) (hseen r (by simp))
    simp only [delMask, hcontains, Bool.not_false, Bool.and_true, List.map_cons]
    congr 1
    refine ih _ hn.2 ?_
    intro x hx
    simp only [List.mem_cons, not_or]
    constructor
    · intro hcontra
      exact hn.1 ⟨x, hx, hcontra⟩
    · exact hseen x (by simp [hx])

theorem keepUnmarked_map (p : TOARec → Bool) :
    ∀ rows : List TOARec, keepUnmarked rows (rows.map p) = rows.filter (fun r => !p r) := by
  intro rows
  induction rows with
  | nil => rfl
  | cons r rs ih =>
    simp only [List.map_cons, keepUnmarked, List.filter_cons]
    cases hp : p r <;> simp [hp, ih]

theorem keepMarked_sublist : ∀ (rows : List TOARec) (mask : List Bool),
    (keepMarked rows mask).Sublist rows := by
  intro rows
  induction rows with
  | nil => intro mask; cases mask <;> simp [keepMarked]
  | cons r rs ih =>
    intro mask
    cases mask with
    | nil => simp [keepMarked]
    | cons b bs =>
      cases b with
      | true => simpa [keepMarked] using (ih bs).cons₂ r
      | false => simpa [keepMarked] using (ih bs).cons r

theorem sortByObs_of_sorted :
    ∀ l : List TOARec, l.Pairwise (fun a b => a.obs ≤ b.obs) → sortByObs l = l := by
  intro l
  induction l with
  | nil => intro _; rfl
  | cons x xs ih =>
    intro hs
    rw [List.pairwise_cons] at hs
    rw [sortByObs, ih hs.2]
    cases xs with
    | nil => rfl
    | cons y ys => simp [insertObs, hs.1 y (by simp)]

theorem delTable_some (del : Finset Nat) (t t' : TOATable)
    (hn : (t.rows.map TOARec.idx).Nodup)
    (hs : t.rows.Pairwise (fun a b => a.obs ≤ b.obs))
    (h : delTable del t = some t') :
    t'.rows = t.rows.filter (fun r => !decide (r.idx ∈ del))
    ∧ t'.hasPN = t.hasPN ∧ t'.hasDPN = t.hasDPN ∧ t'.hasDPNS = t.hasDPNS := by
  simp only [delTable] at h
  rw [delMask_eq_map del t.rows [] hn (by simp), keepUnmarked_map] at h
  split at h
  · injection h with h
    subst h
    rw [sortByObs_of_sorted _ (hs.sublist (List.filter_sublist t.rows))]
    exact ⟨rfl, rfl, rfl, rfl⟩
  · exact absurd h (by simp)

/-- Destructuring a successful `delete_TOAs` call: the new deleted set,
the filtered full table, and the two branches for the returned mask and
selected table. -/
theorem delete_TOAs_some (inds : List Nat) (sel : List Bool) (s : PState)
    (s' : PState) (m : List Bool) (hinv : TInv s)
    (h : delete_TOAs inds (some sel) s = some (s', m)) :
    s'.deleted = s.deleted ∪ inds.toFinset
    ∧ s'.all_toas.rows
        = s.all_toas.rows.filter (fun r => !decide (r.idx ∈ s.deleted ∪ inds.toFinset))
    ∧ ((delTable (s.deleted ∪ inds.toFinset) s.selected_toas = none
        ∧ s'.selected_toas = s'.all_toas
        ∧ m = List.replicate s'.all_toas.rows.length false)
       ∨ (delTable (s.deleted ∪ inds.toFinset) s.selected_toas ≠ none
          ∧ m = (s'.all_toas.rows.zip sel).filterMap
              (fun p => if p.1.idx ∈ inds then none else some p.2)
          ∧ s'.selected_toas.rows = keepMarked s'.all_toas.rows m)) := by
  obtain ⟨hsA, hsS, hnA, hnS⟩ := hinv
  simp only [delete_TOAs] at h
  rcases hAll : delTable (s.deleted ∪ inds.toFinset) s.all_toas with - | allTab
  · rw [hAll] at h
    exact absurd h (by simp)
  · rw [hAll] at h
    have hAllRows := delTable_some _ _ _ hnA hsA hAll
    rcases hSel : delTable (s.deleted ∪ inds.toFinset) s.selected_toas with - | selTab
    · rw [hSel] at h
      injection h with h
      injection h with h1 h2
      subst h1
      refine ⟨rfl, hAllRows.1, Or.inl ⟨rfl, rfl, ?_⟩⟩
      exact h2.symm
    · rw [hSel] at h
      injection h with h
      injection h with h1 h2
      subst h1
      subst h2
      exact ⟨rfl, hAllRows.1, Or.inr ⟨by simp [hSel], rfl, rfl⟩⟩

/-- The invariant `TInv` is preserved by a successful `delete_TOAs` call. -/
theorem delete_TOAs_TInv (inds : List Nat) (sel : List Bool) (s : PState)
    (s' : PState) (m : List Bool) (hinv : TInv s)
    (h : delete_TOAs inds (some sel) s = some (s', m)) : TInv s' := by
  obtain ⟨hdel, hrows, hbr⟩ := delete_TOAs_some inds sel s s' m hinv h
  obtain ⟨hsA, hsS, hnA, hnS⟩ := hinv
  have hsub : s'.all_toas.rows.Sublist s.all_toas.rows := by
    rw [hrows]; exact List.filter_sublist _
  have hsA' : s'.all_toas.rows.Pairwise (fun a b => a.obs ≤ b.obs) := hsA.sublist hsub
  have hnA' : (s'.all_toas.rows.map TOARec.idx).Nodup := (hsub.map TOARec.idx).nodup hnA
  rcases hbr with ⟨-, hsel, -⟩ | ⟨-, -, hsel⟩
  · unfold TInv
    rw [hsel]
    exact ⟨hsA', hsA', hnA', hnA'⟩
  · have hsub2 : s'.selected_toas.rows.Sublist s'.all_toas.rows := by
      rw [hsel]; exact keepMarked_sublist _ _
    exact ⟨hsA', hsA'.sublist hsub2, hnA', (hsub2.map TOARec.idx).nodup hnA'⟩

theorem zipFilter_eq_map (inds : List Nat) :
    ∀ (rows : List TOARec) (sel : List Bool), (∀ r ∈ rows, r.idx ∉ inds) →
      (rows.zip sel).filterMap (fun p => if p.1.idx ∈ inds then none else some p.2)
        = (rows.zip sel).map Prod.snd := by
  intro rows
  induction rows with
  | nil => intro sel _; rfl
  | cons r rs ih =>
    intro sel h
    cases sel with
    | nil => rfl
    | cons b bs =>
      have hcond : r.idx ∉ inds := h r (by simp)
      simp [hcond, ih bs (fun x hx => h x (by simp [hx]))]

/-- Every row surviving a `delete_TOAs` call has an index outside the
indices passed to the call. -/
theorem surviving_not_in_inds (inds : List Nat) (s : PState) (rows' : List TOARec)
    (hrows : rows' = s.all_toas.rows.filter
      (fun r => !decide (r.idx ∈ s.deleted ∪ inds.toFinset))) :
    ∀ r ∈ rows', r.idx ∉ inds := by
  intro r hr hmem
  rw [hrows] at hr
  have hp := List.of_mem_filter hr
  simp only [Bool.not_eq_true', decide_eq_false_iff_not] at hp
  exact hp (Finset.mem_union_right _ (List.mem_toFinset.mpr hmem))

/-- The returned mask of a successful `delete_TOAs` call has the length
of the new full table (given a well-formed input mask). -/
theorem mask_length_eq (inds : List Nat) (sel : List Bool) (s s' : PState) (m : List Bool)
    (hinv : TInv s) (hlen : sel.length = s.all_toas.rows.length)
    (h : delete_TOAs inds (some sel) s = some (s', m)) :
    m.length = s'.all_toas.rows.length := by
  obtain ⟨hdel, hrows, hbr⟩ := delete_TOAs_some inds sel s s' m hinv h
  rcases hbr with ⟨-, -, hm⟩ | ⟨-, hm, -⟩
  · rw [hm, List.length_replicate]
  · rw [hm, zipFilter_eq_map inds _ sel (surviving_not_in_inds inds s _ hrows),
      List.length_map, List.length_zip]
    have h1 : s'.all_toas.rows.length ≤ sel.length := by
      rw [hlen, hrows]
      exact List.length_filter_le _ _
    omega

theorem keepMarked_cons_true (r : TOARec) (rs : List TOARec) (bs : List Bool) :
    keepMarked (r :: rs) (true :: bs) = r :: keepMarked rs bs := rfl

theorem keepMarked_cons_false (r : TOARec) (rs : List TOARec) (bs : List Bool) :
    keepMarked (r :: rs) (false :: bs) = keepMarked rs bs := rfl

theorem keepMarked_zip_mem :
    ∀ (rows : List TOARec) (mask : List Bool),
      (rows.map TOARec.idx).Nodup → mask.length = rows.length →
      ∀ p ∈ mask.zip rows,
        (p.1 = true ↔ p.2.idx ∈ (keepMarked rows mask).map TOARec.idx) := by
  intro rows
  induction rows with
  | nil =>
    intro mask _ hlen p hp
    rw [List.length_nil, List.length_eq_zero] at hlen
    subst hlen
    simp at hp
  | cons r rs ih =>
    intro mask hn hlen p hp
    cases mask with
    | nil => simp at hlen
    | cons b bs =>
      rw [List.map_cons, List.nodup_cons] at hn
      rw [List.zip_cons_cons] at hp
      rcases List.mem_cons.mp hp with rfl | hp2
      · cases b with
        | true => simp [keepMarked]
        | false =>
          simp only [keepMarked]
          constructor
          · intro hcontra; exact absurd hcontra (by simp)
          · intro hmem
            exfalso
            apply hn.1
            obtain ⟨x, hx, hxi⟩ := List.mem_map.mp hmem
            exact List.mem_map.mpr ⟨x, (keepMarked_sublist rs bs).subset hx, hxi⟩
      · have hrec := ih bs hn.2 (by simpa using hlen) p hp2
        have hmem2 : p.2 ∈ rs := (List.of_mem_zip hp2).2
        cases b with
        | false => simpa [keepMarked] using hrec
        | true =>
          have hne : ¬ p.2.idx = r.idx := by
            intro hcontra
            exact hn.1 (List.mem_map.mpr ⟨p.2, hmem2, hcontra⟩)
          rw [keepMarked_cons_true, List.map_cons, List.mem_cons, or_iff_right hne]
          exact hrec

/-! ## Claim C6 — mask length invariant -/

/-- C6: after every successful `delete_TOAs` call whose input mask is
parallel to the full table, the returned mask's length equals the new
full TOA set's size. -/
theorem claim_C6 (inds : List Nat) (sel : List Bool) (s s' : PState) (m : List Bool)
    (hinv : TInv s) (hlen : sel.length = s.all_toas.rows.length)
    (h : delete_TOAs inds (some sel) s = some (s', m)) :
    m.length = s'.all_toas.rows.length :=
  mask_length_eq inds sel s s' m hinv hlen h

/-! ## Claim C2 — the returned mask and the new selected set -/

/-- C2: for a successful `delete_TOAs` call with a parallel input mask:
if the deletion empties the selected set (the selected table's
`_delete_TOAs` returns `None`), the selected set is reset to the
now-smaller full set and the returned mask is all-`False`; otherwise
the returned mask has the new full set's length, the new selected set
is exactly the full set's rows at the mask's `true` positions, and the
mask is `true` exactly at the positions (in full-set iteration order)
whose TOA index appears in the new selection. -/
theorem claim_C2 (inds : List Nat) (sel : List Bool) (s s' : PState) (m : List Bool)
    (hinv : TInv s) (hlen : sel.length = s.all_toas.rows.length)
    (h : delete_TOAs inds (some sel) s = some (s', m)) :
    (delTable (s.deleted ∪ inds.toFinset) s.selected_toas = none →
      s'.selected_toas = s'.all_toas ∧ m = List.replicate s'.all_toas.rows.length false)
    ∧ (delTable (s.deleted ∪ inds.toFinset) s.selected_toas ≠ none →
      m.length = s'.all_toas.rows.length
      ∧ s'.selected_toas.rows = keepMarked s'.all_toas.rows m
      ∧ ∀ p ∈ m.zip s'.all_toas.rows,
          (p.1 = true ↔ p.2.idx ∈ s'.selected_toas.rows.map TOARec.idx)) := by
  obtain ⟨hdel, hrows, hbr⟩ := delete_TOAs_some inds sel s s' m hinv h
  have hmask := mask_length_eq inds sel s s' m hinv hlen h
  have hnA' : (s'.all_toas.rows.map TOARec.idx).Nodup := by
    rw [hrows]
    exact ((List.filter_sublist _).map TOARec.idx).nodup hinv.2.2.1
  rcases hbr with ⟨hnone, hsel, hm⟩ | ⟨hne, hm, hsel⟩
  · exact ⟨fun _ => ⟨hsel, hm⟩, fun hcontra => absurd hnone hcontra⟩
  · refine ⟨fun hcontra => absurd hcontra hne, fun _ => ⟨hmask, hsel, ?_⟩⟩
    intro p hp
    rw [hsel]
    exact keepMarked_zip_mem s'.all_toas.rows m hnA' hmask p hp

/-! ## Claim C5 — identity stability across deletion sequences -/

/-- The stronger session invariant for deletion sequences: the table
invariant, the selected rows being a sub-sequence of the full rows, and
no live row carrying a deleted index (all true of a freshly loaded
session, whose deleted set is empty and whose selected set is a copy of
the full set). -/
def SInv (s : PState) : Prop :=
  TInv s
  ∧ s.selected_toas.rows.Sublist s.all_toas.rows
  ∧ ∀ r ∈ s.all_toas.rows, r.idx ∉ s.deleted

/-- One `delete_TOAs` step preserves `SInv` and only shrinks the row
list (keeping surviving records verbatim) while growing the deleted
set. -/
theorem SInv_step (inds : List Nat) (sel : List Bool) (s s' : PState) (m : List Bool)
    (hinv : SInv s) (h : delete_TOAs inds (some sel) s = some (s', m)) :
    SInv s'
    ∧ s'.all_toas.rows.Sublist s.all_toas.rows
    ∧ s.deleted ⊆ s'.deleted
    ∧ ∀ i ∈ inds, i ∈ s'.deleted := by
  obtain ⟨hdel, hrows, hbr⟩ := delete_TOAs_some inds sel s s' m hinv.1 h
  have htinv := delete_TOAs_TInv inds sel s s' m hinv.1 h
  have hsub : s'.all_toas.rows.Sublist s.all_toas.rows := by
    rw [hrows]; exact List.filter_sublist _
  have hclean : ∀ r ∈ s'.all_toas.rows, r.idx ∉ s'.deleted := by
    intro r hr
    rw [hrows] at hr
    have hp := List.of_mem_filter hr
    simp only [Bool.not_eq_true', decide_eq_false_iff_not] at hp
    rw [hdel]
    exact hp
  have hselsub : s'.selected_toas.rows.Sublist s'.all_toas.rows := by
    rcases hbr with ⟨-, hsel2, -⟩ | ⟨-, -, hsel2⟩
    · rw [hsel2]
    · rw [hsel2]; exact keepMarked_sublist _ _
  refine ⟨⟨htinv, hselsub, hclean⟩, hsub, ?_, ?_⟩
  · rw [hdel]; exact Finset.subset_union_left
  · intro i hi
    rw [hdel]
    exact Finset.mem_union_right _ (List.mem_toFinset.mpr hi)

/-- A sequence of `delete_TOAs` calls, each with its input mask; the
session aborts (`none`) if any call raises. -/
def delSeq : List (List Nat × List Bool) → PState → Option PState
  | [], s => some s
  | op :: ops, s =>
      match delete_TOAs op.1 (some op.2) s with
      | some p => delSeq ops p.1
      | none => none

/-- C5: across any sequence of deletions, the surviving full set is a
sub-sequence of the original records (so every surviving TOA keeps its
record, index included, and nothing is renumbered), the selected set is
drawn from the surviving full set, no index of the deleted set appears
in either live set, the deleted set only grows, and every index ever
passed to a delete call is in the final deleted set. -/
theorem claim_C5 (ops : List (List Nat × List Bool)) (s s' : PState)
    (hinv : SInv s) (h : delSeq ops s = some s') :
    s'.all_toas.rows.Sublist s.all_toas.rows
    ∧ s'.selected_toas.rows.Sublist s'.all_toas.rows
    ∧ (∀ r ∈ s'.all_toas.rows, r.idx ∉ s'.deleted)
    ∧ (∀ r ∈ s'.selected_toas.rows, r.idx ∉ s'.deleted)
    ∧ s.deleted ⊆ s'.deleted
    ∧ ∀ op ∈ ops, ∀ i ∈ op.1, i ∈ s'.deleted := by
  induction ops generalizing s with
  | nil =>
    rw [delSeq] at h
    injection h with h
    subst h
    exact ⟨List.Sublist.refl _, hinv.2.1,
      hinv.2.2, fun r hr => hinv.2.2 r (hinv.2.1.subset hr),
      Finset.Subset.refl _, by simp⟩
  | cons op ops ih =>
    rw [delSeq] at h
    rcases hstep : delete_TOAs op.1 (some op.2) s with - | p
    · rw [hstep] at h; exact absurd h (by simp)
    · rw [hstep] at h
      obtain ⟨hinv1, hsub1, hgrow1, hin1⟩ := SInv_step op.1 op.2 s p.1 p.2 hinv hstep
      obtain ⟨h1, h2, h3, h4, h5, h6⟩ := ih p.1 hinv1 h
      refine ⟨h1.trans hsub1, h2, h3, h4, hgrow1.trans h5, ?_⟩
      intro o ho i hi
      rcases List.mem_cons.mp ho with rfl | ho2
      · exact h5 (hin1 i hi)
      · exact h6 o ho2 i hi

/-- The spec's scenario deletion: `delete([3,7], mask=[True]*10)` on ten
TOAs, extracted so the claim hypotheses can be discharged by `rfl`. -/
def c2Out : PState × List Bool :=
  (delete_TOAs [3, 7] (some (List.replicate 10 true)) (mkState tenToas)).getD
    (mkState tenToas, [])

/-- Witness for C2 at the spec's scenario: the deletion does not empty
the selection, and the returned mask matches the new selected set (the
remaining eight records). -/
theorem claim_C2_witness :
    delete_TOAs [3, 7] (some (List.replicate 10 true)) (mkState tenToas)
      = some (c2Out.1, c2Out.2)
    ∧ c2Out.2.length = c2Out.1.all_toas.rows.length
    ∧ c2Out.1.selected_toas.rows = keepMarked c2Out.1.all_toas.rows c2Out.2 := by
  refine ⟨rfl, ?_, ?_⟩
  · exact (claim_C2 [3, 7] (List.replicate 10 true) (mkState tenToas) c2Out.1 c2Out.2
      ⟨by decide, by decide, by decide, by decide⟩ (by decide) rfl).2 (by decide) |>.1
  · exact (claim_C2 [3, 7] (List.replicate 10 true) (mkState tenToas) c2Out.1 c2Out.2
      ⟨by decide, by decide, by decide, by decide⟩ (by decide) rfl).2 (by decide) |>.2.1

/-- Witness for C6 at the same scenario: the returned mask's length
equals the new full set's size (eight). -/
theorem claim_C6_witness :
    c2Out.2.length = c2Out.1.all_toas.rows.length :=
  claim_C6 [3, 7] (List.replicate 10 true) (mkState tenToas) c2Out.1 c2Out.2
    ⟨by decide, by decide, by decide, by decide⟩ (by decide) rfl

/-- The deletion sequence of the C5 witness, extracted so the claim
hypotheses can be discharged by `rfl`. -/
def c5Out : PState :=
  (delSeq [([3, 7], List.replicate 10 true), ([0], List.replicate 8 true)]
    (mkState tenToas)).getD (mkState tenToas)

/-- Witness for C5 at a two-step deletion sequence: the surviving rows
are a sub-sequence of the originals and carry no deleted index. -/
theorem claim_C5_witness :
    c5Out.all_toas.rows.Sublist (mkState tenToas).all_toas.rows
    ∧ ∀ r ∈ c5Out.all_toas.rows, r.idx ∉ c5Out.deleted := by
  have h := claim_C5 [([3, 7], List.replicate 10 true), ([0], List.replicate 8 true)]
    (mkState tenToas) c5Out
    ⟨⟨by decide, by decide, by decide, by decide⟩, by decide, by decide⟩ rfl
  exact ⟨h.1, h.2.2.1⟩

/-! ## Pulse-number tracking stickiness: no session operation switches
`use_pulse_numbers` off -/

theorem update_resids_all_toas (s : PState) : (update_resids s).all_toas = s.all_toas := by
  unfold update_resids; split <;> rfl

theorem update_resids_selected_toas (s : PState) :
    (update_resids s).selected_toas = s.selected_toas := by
  unfold update_resids; split <;> rfl

theorem delete_TOAs_upn (inds : List Nat) (selOpt : Option (List Bool)) (s : PState)
    (p : PState × List Bool) (h : delete_TOAs inds selOpt s = some p) :
    p.1.use_pulse_numbers = s.use_pulse_numbers := by
  simp only [delete_TOAs] at h
  rcases hAll : delTable (s.deleted ∪ inds.toFinset) s.all_toas with - | allTab
  · rw [hAll] at h; exact absurd h (by simp)
  · rw [hAll] at h
    rcases selOpt with - | sel
    · rcases hSel : delTable (s.deleted ∪ inds.toFinset) s.selected_toas with - | selTab
      all_goals simp only at h
      · exact absurd h (by simp)
      · exact absurd h (by simp)
    · rcases hSel : delTable (s.deleted ∪ inds.toFinset) s.selected_toas with - | selTab
      · rw [hSel] at h
        injection h with h
        rw [← h]
      · rw [hSel] at h
        injection h with h
        rw [← h]

theorem add_jump_upn (sel : List Bool) (s : PState) :
    (add_jump sel s).use_pulse_numbers = s.use_pulse_numbers := by
  simp only [add_jump]
  by_cases h1 : s.prefit_model.hasPJ = false
  · rw [if_pos h1]
  · rw [if_neg h1]
    by_cases h2 : s.prefit_model.jumps.length = 0
    · rw [if_pos h2]
    · rw [if_neg h2]
      rcases List.find? (fun num => toasJumped num s.all_toas.rows == sel)
          (List.range' 1 s.prefit_model.jumps.length) with - | num <;> rfl

theorem add_phase_wrap_upn (pnOf : Model → ℚ → ℤ) (sel : List Bool) (c : ℚ) (s : PState) :
    (add_phase_wrap pnOf sel c s).use_pulse_numbers = true := by
  unfold add_phase_wrap
  rw [update_resids_upn]

theorem fit_error_upn (strat : Fitters → TOATable → Model → Option Model)
    (pnOf : Model → ℚ → ℤ) (nowMJD : ℚ) (cr : Bool) (sel : List Bool) (s t : PState)
    (hf : fit strat pnOf nowMJD cr sel s = Except.error t) :
    t.use_pulse_numbers = s.use_pulse_numbers := by
  rcases hm : strat (promote s).fitterKind (promote s).selected_toas (promote s).prefit_model
    with - | m
  · rw [fit, hm] at hf
    have h2 : (Except.error (promote s) : Except PState PState) = Except.error t := hf
    injection h2 with h2
    rw [← h2]
    exact promote_upn s
  · rw [fit, hm] at hf
    rcases cr with - | -
    · simp only [Bool.false_eq_true, if_false] at hf
      exact absurd hf (by simp)
    · simp only [if_true] at hf
      rcases hmin : ((computePN pnOf m (zeroDPN (promote s).selected_toas)).rows.map
          TOARec.mjd).min? with - | mn <;>
        rcases hmax : ((computePN pnOf m (zeroDPN (promote s).selected_toas)).rows.map
          TOARec.mjd).max? with - | mx <;>
        rw [hmin, hmax] at hf
      all_goals
        first
        | (injection hf with hf
           rw [← hf]
           exact promote_upn s)
        | exact absurd hf (by simp)

theorem fit_ok_upn (strat : Fitters → TOATable → Model → Option Model)
    (pnOf : Model → ℚ → ℤ) (nowMJD : ℚ) (cr : Bool) (sel : List Bool) (s t : PState)
    (hf : fit strat pnOf nowMJD cr sel s = Except.ok t) :
    t.use_pulse_numbers = s.use_pulse_numbers := by
  rcases hm : strat (promote s).fitterKind (promote s).selected_toas (promote s).prefit_model
    with - | m
  · rw [fit, hm] at hf
    exact absurd hf (by simp)
  · rw [fit, hm] at hf
    rcases cr with - | -
    · simp only [Bool.false_eq_true, if_false] at hf
      injection hf with hf
      rw [← hf]
      exact promote_upn s
    · simp only [if_true] at hf
      rcases hmin : ((computePN pnOf m (zeroDPN (promote s).selected_toas)).rows.map
          TOARec.mjd).min? with - | mn <;>
        rcases hmax : ((computePN pnOf m (zeroDPN (promote s).selected_toas)).rows.map
          TOARec.mjd).max? with - | mx <;>
        rw [hmin, hmax] at hf
      all_goals
        first
        | (injection hf with hf
           rw [← hf]
           exact promote_upn s)
        | exact absurd hf (by simp)

theorem applyOp_upn (op : SessionOp) (s : PState) (h : s.use_pulse_numbers = true) :
    (applyOp s op).use_pulse_numbers = true := by
  cases op with
  | del inds selOpt =>
    simp only [applyOp]
    rcases hdel : delete_TOAs inds selOpt s with - | p
    · exact h
    · rw [delete_TOAs_upn inds selOpt s p hdel]; exact h
  | jump sel => rw [applyOp, add_jump_upn]; exact h
  | wrap pnOf sel c => rw [applyOp, add_phase_wrap_upn]
  | dofit strat pnOf now cr sel =>
    simp only [applyOp]
    rcases hf : fit strat pnOf now cr sel s with t | t
    · rw [fit_error_upn strat pnOf now cr sel s t hf]; exact h
    · rw [fit_ok_upn strat pnOf now cr sel s t hf]; exact h
  | updres => rw [applyOp, update_resids_upn]; exact h

theorem foldl_applyOp_upn (ops : List SessionOp) :
    ∀ s : PState, s.use_pulse_numbers = true →
      (ops.foldl applyOp s).use_pulse_numbers = true := by
  induction ops with
  | nil => intro s h; exact h
  | cons op ops ih =>
    intro s h
    rw [List.foldl_cons]
    exact ih _ (applyOp_upn op s h)

/-! ## Claim C9 — `add_phase_wrap` -/

theorem computePN_hasPN (pnOf : Model → ℚ → ℤ) (m : Model) (t : TOATable) :
    (computePN pnOf m t).hasPN = true := rfl

theorem zeroDPN_hasPN (t : TOATable) : (zeroDPN t).hasPN = t.hasPN := rfl

theorem zeroDPN_hasDPN (t : TOATable) : (zeroDPN t).hasDPN = true := rfl

theorem computePN_pn (pnOf : Model → ℚ → ℤ) (m : Model) (t : TOATable) :
    (computePN pnOf m t).rows.map TOARec.pn = t.rows.map (fun r => pnOf m r.mjd) := by
  simp [computePN, List.map_map, Function.comp]

theorem computePN_mjd (pnOf : Model → ℚ → ℤ) (m : Model) (t : TOATable) :
    (computePN pnOf m t).rows.map TOARec.mjd = t.rows.map TOARec.mjd := by
  simp [computePN, List.map_map, Function.comp]

theorem zeroDPN_pn (t : TOATable) :
    (zeroDPN t).rows.map TOARec.pn = t.rows.map TOARec.pn := by
  simp [zeroDPN, List.map_map, Function.comp]

theorem zeroDPN_dpn_zero (t : TOATable) :
    (zeroDPN t).rows.map TOARec.dpn = List.replicate t.rows.length 0 := by
  show (t.rows.map (fun r => { r with dpn := 0 })).map TOARec.dpn
    = List.replicate t.rows.length 0
  rw [List.map_map]
  have h : (TOARec.dpn ∘ fun r : TOARec => { r with dpn := 0 }) = fun _ => (0 : ℚ) := rfl
  rw [h, List.map_const']

theorem computePN_length (pnOf : Model → ℚ → ℤ) (m : Model) (t : TOATable) :
    (computePN pnOf m t).rows.length = t.rows.length := by
  simp [computePN]

theorem zeroDPN_length (t : TOATable) : (zeroDPN t).rows.length = t.rows.length := by
  simp [zeroDPN]

/-- The phase-wrap update of line 323 does not change the
`pulse_number` column. -/
theorem zipWith_apw_pn (c : ℚ) :
    ∀ (rows : List TOARec) (sel : List Bool), sel.length = rows.length →
      (List.zipWith (fun r b => if b then { r with dpn := r.dpn + c } else r)
        rows sel).map TOARec.pn = rows.map TOARec.pn := by
  intro rows
  induction rows with
  | nil => intro sel _; simp
  | cons r rs ih =>
    intro sel hlen
    cases sel with
    | nil => simp at hlen
    | cons b bs =>
      cases b <;> simp [ih bs (by simpa using hlen)]

/-- The phase-wrap update of line 323 adds `c` to `delta_pulse_number`
exactly at the mask's `true` positions. -/
theorem zipWith_apw_dpn (c : ℚ) :
    ∀ (rows : List TOARec) (sel : List Bool),
      (List.zipWith (fun r b => if b then { r with dpn := r.dpn + c } else r)
        rows sel).map TOARec.dpn
      = List.zipWith (fun d b => d + if b then c else 0) (rows.map TOARec.dpn) sel := by
  intro rows
  induction rows with
  | nil => intro sel; simp
  | cons r rs ih =>
    intro sel
    cases sel with
    | nil => simp
    | cons b bs =>
      cases b <;> simp [ih bs]

theorem bool_cond_false {a b : Bool} (h : (!a || !b) = false) : a = true ∧ b = true := by
  rcases a with - | - <;> rcases b with - | - <;> simp_all

theorem bool_cond_not {a b : Bool} (h : ¬((!a || !b) = true)) :
    a = true ∧ b = true := by
  rcases a with - | - <;> rcases b with - | - <;> simp_all

theorem bool_cond_true {a b : Bool} (h : (!a || !b) = true) : (a && b) = false := by
  rcases a with - | - <;> rcases b with - | - <;> simp_all

/-- C9: `add_phase_wrap(selection_mask, cycles)` lazily creates the
pulse-number column (from the post-fit model when fitted, else the
pre-fit model) and a zeroed `delta_pulse_number` column on both TOA
sets when absent, adds `cycles` to `delta_pulse_number` at every
mask-selected position of the full set, and switches pulse-number
tracking on — a mode no subsequent session operation (delete, jump,
wrap, fit, residual refresh) switches off. -/
theorem claim_C9 (pnOf : Model → ℚ → ℤ) (sel : List Bool) (c : ℚ) (s : PState)
    (hlen : sel.length = s.all_toas.rows.length) :
    (add_phase_wrap pnOf sel c s).use_pulse_numbers = true
    ∧ (∀ ops : List SessionOp,
        (ops.foldl applyOp (add_phase_wrap pnOf sel c s)).use_pulse_numbers = true)
    ∧ (add_phase_wrap pnOf sel c s).all_toas.hasPN = true
    ∧ (add_phase_wrap pnOf sel c s).selected_toas.hasPN = true
    ∧ (add_phase_wrap pnOf sel c s).all_toas.hasDPN = true
    ∧ (add_phase_wrap pnOf sel c s).selected_toas.hasDPN = true
    ∧ ((s.all_toas.hasPN && s.selected_toas.hasPN) = false →
        (add_phase_wrap pnOf sel c s).all_toas.rows.map TOARec.pn
          = s.all_toas.rows.map (fun r =>
              pnOf (if s.fitted then s.postfit_model.getD s.prefit_model
                    else s.prefit_model) r.mjd)
        ∧ (add_phase_wrap pnOf sel c s).selected_toas.rows.map TOARec.pn
          = s.selected_toas.rows.map (fun r =>
              pnOf (if s.fitted then s.postfit_model.getD s.prefit_model
                    else s.prefit_model) r.mjd))
    ∧ ((s.all_toas.hasDPN && s.selected_toas.hasDPN) = false →
        (add_phase_wrap pnOf sel c s).all_toas.rows.map TOARec.dpn
          = List.zipWith (fun d b => d + if b then c else 0)
              (List.replicate s.all_toas.rows.length (0 : ℚ)) sel
        ∧ ∀ r ∈ (add_phase_wrap pnOf sel c s).selected_toas.rows, r.dpn = 0)
    ∧ ((s.all_toas.hasDPN && s.selected_toas.hasDPN) = true →
        (add_phase_wrap pnOf sel c s).all_toas.rows.map TOARec.dpn
          = List.zipWith (fun d b => d + if b then c else 0)
              (s.all_toas.rows.map TOARec.dpn) sel) := by
  refine ⟨add_phase_wrap_upn pnOf sel c s,
    fun ops => foldl_applyOp_upn ops _ (add_phase_wrap_upn pnOf sel c s),
    ?_⟩
  simp only [add_phase_wrap, update_resids_all_toas, update_resids_selected_toas]
  set mdl := (if s.fitted = true then s.postfit_model.getD s.prefit_model
    else s.prefit_model) with hmdl
  split_ifs with h1 h2 h3
  · -- pulse-number columns created, delta columns created
    have h2p : (!s.all_toas.hasDPN || !s.selected_toas.hasDPN) = true := h2
    refine ⟨rfl, rfl, rfl, rfl, fun _ => ⟨?_, ?_⟩, fun _ => ⟨?_, ?_⟩, fun hk => ?_⟩
    · rw [zipWith_apw_pn c _ sel
        (by rw [zeroDPN_length, computePN_length]; exact hlen), zeroDPN_pn, computePN_pn]
    · rw [zeroDPN_pn, computePN_pn]
    · rw [zipWith_apw_dpn, zeroDPN_dpn_zero, computePN_length]
    · intro r hr
      exact zeroDPN_dpn _ r hr
    · rw [bool_cond_true h2p] at hk
      exact absurd hk (by simp)
  · -- pulse-number columns created, delta columns already present
    have h2p : ¬((!s.all_toas.hasDPN || !s.selected_toas.hasDPN) = true) := h2
    obtain ⟨hC, hD⟩ := bool_cond_not h2p
    refine ⟨rfl, rfl, hC, hD, fun _ => ⟨?_, ?_⟩, fun hcon => ?_, fun _ => ?_⟩
    · rw [zipWith_apw_pn c _ sel (by rw [computePN_length]; exact hlen), computePN_pn]
    · rw [computePN_pn]
    · rw [hC, hD] at hcon; exact absurd hcon (by simp)
    · rw [zipWith_apw_dpn, computePN_dpn]
  · -- pulse-number columns present, delta columns created
    obtain ⟨hA, hB⟩ := bool_cond_not h1
    refine ⟨hA, hB, rfl, rfl, fun hcon => ?_, fun _ => ⟨?_, ?_⟩, fun hk => ?_⟩
    · rw [hA, hB] at hcon; exact absurd hcon (by simp)
    · rw [zipWith_apw_dpn, zeroDPN_dpn_zero]
    · intro r hr
      exact zeroDPN_dpn _ r hr
    · rw [bool_cond_true h3] at hk
      exact absurd hk (by simp)
  · -- both column pairs already present
    obtain ⟨hA, hB⟩ := bool_cond_not h1
    obtain ⟨hC, hD⟩ := bool_cond_not h3
    refine ⟨hA, hB, hC, hD, fun hcon => ?_, fun hcon => ?_, fun _ => ?_⟩
    · rw [hA, hB] at hcon; exact absurd hcon (by simp)
    · rw [hC, hD] at hcon; exact absurd hcon (by simp)
    · rw [zipWith_apw_dpn]

/-- Witness for C9 at a concrete session: a half-cycle wrap on all ten
TOAs switches tracking on and materializes the delta column. -/
theorem claim_C9_witness :
    (add_phase_wrap pnZero (List.replicate 10 true) (1/2) (mkState tenToas)).use_pulse_numbers
      = true
    ∧ (add_phase_wrap pnZero (List.replicate 10 true) (1/2) (mkState tenToas)).all_toas.hasDPN
      = true
    ∧ (add_phase_wrap pnZero (List.replicate 10 true) (1/2) (mkState tenToas)).all_toas.hasPN
      = true :=
  ⟨(claim_C9 pnZero (List.replicate 10 true) (1/2) (mkState tenToas) (by decide)).1,
   (claim_C9 pnZero (List.replicate 10 true) (1/2) (mkState tenToas) (by decide)).2.2.2.2.1,
   (claim_C9 pnZero (List.replicate 10 true) (1/2) (mkState tenToas) (by decide)).2.2.1⟩

/-! ## Claim C4 — jump toggling

The exact-match loop of lines 355-369 only inspects jump ids
`1..numjumps`, and after a deletion it refuses to operate at all when
`numjumps` drops to zero (lines 349-353).  Toggling a selection that
exactly matches the *only* existing jump therefore deletes that jump,
and the immediately repeated toggle hits the distinguished
zero-jumps warning and does nothing — the jump set is *not* restored.
The idempotence does hold in the other direction: when the first
toggle adds a jump (no exact match exists), the second toggle finds
and deletes exactly the jump just added. -/

theorem lowestUnused_spec (js : List Nat) :
    1 ≤ lowestUnused js ∧ lowestUnused js ∉ js ∧ lowestUnused js ≤ js.length + 1 := by
  unfold lowestUnused
  rcases hf : (List.range' 1 (js.length + 1)).find? (fun k => decide (k ∉ js)) with - | k
  · exfalso
    have hsub : List.range' 1 (js.length + 1) ⊆ js := by
      intro x hx
      have := List.find?_eq_none.mp hf x hx
      simp only [decide_eq_true_eq] at this
      exact not_not.mp this
    have := (List.subperm_of_subset (List.nodup_range' 1 (js.length + 1)) hsub).length_le
    simp only [List.length_range'] at this
    omega
  · have hmem := List.mem_of_find?_eq_some hf
    have hp := List.find?_some hf
    rw [List.mem_range'_1] at hmem
    show 1 ≤ k ∧ k ∉ js ∧ k ≤ js.length + 1
    exact ⟨hmem.1, of_decide_eq_true hp, by omega⟩

theorem toasJumped_zip_ne (k num : Nat) (hne : num ≠ k) :
    ∀ (rows : List TOARec) (sel : List Bool), sel.length = rows.length →
      toasJumped num (List.zipWith
        (fun r b => if b then { r with flags := r.flags ++ [k] } else r) rows sel)
        = toasJumped num rows := by
  intro rows
  induction rows with
  | nil => intro sel _; simp [toasJumped]
  | cons r rs ih =>
    intro sel hlen
    cases sel with
    | nil => simp at hlen
    | cons b bs =>
      have htl := ih bs (by simpa using hlen)
      simp only [toasJumped] at htl
      cases b <;> simp [toasJumped, List.zipWith_cons_cons, htl, hne]

theorem toasJumped_zip_self (k : Nat) :
    ∀ (rows : List TOARec) (sel : List Bool), sel.length = rows.length →
      (∀ r ∈ rows, k ∉ r.flags) →
      toasJumped k (List.zipWith
        (fun r b => if b then { r with flags := r.flags ++ [k] } else r) rows sel) = sel := by
  intro rows
  induction rows with
  | nil =>
    intro sel hlen _
    rw [List.length_nil, List.length_eq_zero] at hlen
    subst hlen
    rfl
  | cons r rs ih =>
    intro sel hlen hk
    cases sel with
    | nil => simp at hlen
    | cons b bs =>
      have htl := ih bs (by simpa using hlen) (fun x hx => hk x (by simp [hx]))
      have hhd : k ∉ r.flags := hk r (by simp)
      simp only [toasJumped] at htl
      cases b <;> simp [toasJumped, List.zipWith_cons_cons, htl, hhd]

theorem clear_zip (k : Nat) :
    ∀ (rows : List TOARec) (sel : List Bool), sel.length = rows.length →
      (∀ r ∈ rows, k ∉ r.flags) →
      (List.zipWith (fun r b => if b then { r with flags := r.flags ++ [k] } else r)
          rows sel).map
        (fun r => { r with flags := r.flags.filter (fun f => f ≠ k) }) = rows := by
  intro rows
  induction rows with
  | nil => intro sel _ _; simp
  | cons r rs ih =>
    intro sel hlen hk
    cases sel with
    | nil => simp at hlen
    | cons b bs =>
      have htl := ih bs (by simpa using hlen) (fun x hx => hk x (by simp [hx]))
      have hhd : k ∉ r.flags := hk r (by simp)
      have hfil : r.flags.filter (fun f => f ≠ k) = r.flags :=
        List.filter_eq_self.mpr (fun a ha => by
          simp only [ne_eq, decide_eq_true_eq]
          intro hak
          exact hhd (hak ▸ ha))
      cases b with
      | false =>
        rw [List.zipWith_cons_cons, List.map_cons]
        congr 1
        · show { r with flags := r.flags.filter (fun f => f ≠ k) } = r
          rw [hfil]
      | true =>
        rw [List.zipWith_cons_cons, List.map_cons]
        congr 1
        · show { r with flags := (r.flags ++ [k]).filter (fun f => f ≠ k) } = r
          rw [List.filter_append, hfil]
          simp

theorem find?_range'_some (p : Nat → Bool) (k : Nat) :
    ∀ (st n : Nat), st ≤ k → k < st + n → p k = true →
      (∀ j, st ≤ j → j < k → p j = false) →
      (List.range' st n).find? p = some k := by
  intro st n
  induction n generalizing st with
  | zero => intro h1 h2 _ _; omega
  | succ n ih =>
    intro h1 h2 hk hbelow
    rw [List.range'_succ, List.find?_cons]
    rcases eq_or_lt_of_le h1 with rfl | hlt
    · rw [hk]
    · rw [hbelow st (le_refl st) hlt]
      exact ih (st + 1) hlt (by omega) hk (fun j hj hjk => hbelow j (by omega) hjk)

theorem jumps_restore (js : List Nat) (k : Nat) (hk : k ∉ js) :
    (js ++ [k]).filter (fun j => j ≠ k) = js := by
  rw [List.filter_append]
  have h1 : js.filter (fun j => j ≠ k) = js :=
    List.filter_eq_self.mpr (fun a ha => by
      simp only [ne_eq, decide_eq_true_eq]
      intro hak
      exact hk (hak ▸ ha))
  rw [h1]
  simp

/-- The fresh-component branch of `add_jump` (lines 334-345) as an
equation. -/
theorem add_jump_fresh (sel : List Bool) (s : PState)
    (hPJ : s.prefit_model.hasPJ = false) :
    add_jump sel s
      = { s with
          prefit_model := { s.prefit_model with
                            hasPJ := true,
                            jumps := s.prefit_model.jumps
                              ++ [lowestUnused s.prefit_model.jumps] },
          all_toas := { s.all_toas with
                        rows := List.zipWith
                          (fun r b => if b then
                              { r with flags := r.flags
                                  ++ [lowestUnused s.prefit_model.jumps] }
                            else r) s.all_toas.rows sel },
          postfit_model := if s.fitted then
              s.postfit_model.map (fun pm => { pm with hasPJ := true })
            else s.postfit_model } := by
  simp only [add_jump, add_jump_and_flags]
  rw [if_pos hPJ]

/-- The exact-match (deletion) branch of `add_jump` (lines 355-369) as
an equation. -/
theorem add_jump_match (sel : List Bool) (s : PState) (num : Nat)
    (hPJ : s.prefit_model.hasPJ = true)
    (hfind : (List.range' 1 s.prefit_model.jumps.length).find?
      (fun n => toasJumped n s.all_toas.rows == sel) = some num) :
    add_jump sel s
      = { s with
          prefit_model := { s.prefit_model with
                            jumps := s.prefit_model.jumps.filter (fun j => j ≠ num) },
          all_toas := { s.all_toas with
                        rows := s.all_toas.rows.map
                          (fun r => { r with
                                      flags := r.flags.filter (fun f => f ≠ num) }) },
          postfit_model := if s.fitted then
              s.postfit_model.map (fun pm => (delete_jump_and_flags pm [] num).1)
            else s.postfit_model } := by
  have hc1 : ¬(s.prefit_model.hasPJ = false) := by rw [hPJ]; simp
  have hn0 : ¬(s.prefit_model.jumps.length = 0) := by
    intro h0
    rw [h0] at hfind
    simp [List.range'] at hfind
  simp only [add_jump]
  rw [if_neg hc1, if_neg hn0, hfind]
  rfl

/-- The no-match (addition) branch of `add_jump` (lines 370-388) as an
equation. -/
theorem add_jump_nomatch (sel : List Bool) (s : PState)
    (hPJ : s.prefit_model.hasPJ = true)
    (hn0 : ¬(s.prefit_model.jumps.length = 0))
    (hfind : (List.range' 1 s.prefit_model.jumps.length).find?
      (fun n => toasJumped n s.all_toas.rows == sel) = none) :
    add_jump sel s
      = { s with
          prefit_model := { s.prefit_model with
                            jumps := s.prefit_model.jumps
                              ++ [lowestUnused s.prefit_model.jumps] },
          all_toas := { s.all_toas with
                        rows := List.zipWith
                          (fun r b => if b then
                              { r with flags := r.flags
                                  ++ [lowestUnused s.prefit_model.jumps] }
                            else r) s.all_toas.rows sel },
          postfit_model := if s.fitted then
              s.postfit_model.map (fun pm =>
                { pm with jumps := pm.jumps ++ [lowestUnused s.prefit_model.jumps] })
            else s.postfit_model } := by
  have hc1 : ¬(s.prefit_model.hasPJ = false) := by rw [hPJ]; simp
  simp only [add_jump, add_jump_and_flags]
  rw [if_neg hc1, if_neg hn0, hfind]

/-- The zero-jumps warning branch of `add_jump` (lines 349-353) as an
equation: the session is left unchanged. -/
theorem add_jump_zero (sel : List Bool) (s : PState)
    (hPJ : s.prefit_model.hasPJ = true) (h0 : s.prefit_model.jumps.length = 0) :
    add_jump sel s = s := by
  have hc1 : ¬(s.prefit_model.hasPJ = false) := by rw [hPJ]; simp
  simp only [add_jump]
  rw [if_neg hc1, if_pos h0]

/-- The jump-bookkeeping well-formedness invariant: a model without a
`PhaseJump` component carries no jump parameters, jump-parameter ids
are pairwise distinct, and every id in a TOA's jump flag belongs to a
live jump parameter. -/
def JumpWF (s : PState) : Prop :=
  (s.prefit_model.hasPJ = false → s.prefit_model.jumps = [])
  ∧ s.prefit_model.jumps.Nodup
  ∧ ∀ r ∈ s.all_toas.rows, ∀ f ∈ r.flags, f ∈ s.prefit_model.jumps

/-- A session holding exactly one jump (id 1) whose membership is the
first of its two TOAs. -/
def c4State : PState :=
  { mkState (mkTable [mkRec 0 0 0 [1], mkRec 1 0 1 []]) with
    prefit_model := { base := 0, hasPJ := true, jumps := [1], stripped := false } }

/-- Counterexample to C4 as stated: toggling the selection that exactly
matches the only existing jump deletes it, and the immediately repeated
toggle hits the zero-jumps warning branch and does nothing, so the jump
set is not returned to its prior state. -/
theorem claim_C4_cex :
    (add_jump [true, false] (add_jump [true, false] c4State)).prefit_model.jumps
      ≠ c4State.prefit_model.jumps := by decide

/-- C4 amended: toggling twice restores the model's jump set (jump
parameters and per-TOA jump membership flags) *provided the first
toggle adds a jump* — i.e. the selection does not exactly match any
jump with id in `1..numjumps` — in a well-formed session with a
parallel mask.  (When the first toggle deletes a matching jump, the
second toggle need not restore it: with a single jump it hits the
zero-jumps warning branch, see the counterexample.) -/
theorem claim_C4 (sel : List Bool) (s : PState) (hwf : JumpWF s)
    (hlen : sel.length = s.all_toas.rows.length)
    (hadd : s.prefit_model.hasPJ = true →
      (List.range' 1 s.prefit_model.jumps.length).find?
        (fun num => toasJumped num s.all_toas.rows == sel) = none) :
    (add_jump sel (add_jump sel s)).prefit_model.jumps = s.prefit_model.jumps
    ∧ (add_jump sel (add_jump sel s)).all_toas = s.all_toas := by
  obtain ⟨hwf1, hwf2, hwf3⟩ := hwf
  have hk := lowestUnused_spec s.prefit_model.jumps
  by_cases hPJ : s.prefit_model.hasPJ = false
  · -- fresh-component branch: jump 1 is created, then deleted again
    have hjnil : s.prefit_model.jumps = [] := hwf1 hPJ
    have hflag : ∀ r ∈ s.all_toas.rows, lowestUnused s.prefit_model.jumps ∉ r.flags := by
      intro r hr hmem
      have := hwf3 r hr _ hmem
      rw [hjnil] at this
      exact absurd this (List.not_mem_nil _)
    have hfind1 : (List.range' 1
          (s.prefit_model.jumps ++ [lowestUnused s.prefit_model.jumps]).length).find?
        (fun n => toasJumped n (List.zipWith
          (fun r b => if b then
              { r with flags := r.flags ++ [lowestUnused s.prefit_model.jumps] }
            else r) s.all_toas.rows sel) == sel) = some (lowestUnused s.prefit_model.jumps) := by
      apply find?_range'_some
      · exact hk.1
      · rw [List.length_append]
        have h22 := hk.2.2
        simp only [List.length_singleton]
        omega
      · rw [toasJumped_zip_self _ _ _ hlen hflag]
        exact beq_self_eq_true sel
      · intro j hj1 hjk
        have h22 := hk.2.2
        have hlen0 : s.prefit_model.jumps.length = 0 := by rw [hjnil]; rfl
        omega
    have hs1 := add_jump_fresh sel s hPJ
    have hs2 := add_jump_match sel
      { s with
        prefit_model := { s.prefit_model with
                          hasPJ := true,
                          jumps := s.prefit_model.jumps
                            ++ [lowestUnused s.prefit_model.jumps] },
        all_toas := { s.all_toas with
                      rows := List.zipWith
                        (fun r b => if b then
                            { r with flags := r.flags
                                ++ [lowestUnused s.prefit_model.jumps] }
                          else r) s.all_toas.rows sel },
        postfit_model := if s.fitted then
            s.postfit_model.map (fun pm => { pm with hasPJ := true })
          else s.postfit_model }
      (lowestUnused s.prefit_model.jumps) rfl hfind1
    rw [hs1, hs2]
    constructor
    · show (s.prefit_model.jumps ++ [lowestUnused s.prefit_model.jumps]).filter
        (fun j => j ≠ lowestUnused s.prefit_model.jumps) = s.prefit_model.jumps
      exact jumps_restore _ _ hk.2.1
    · show { s.all_toas with rows := (List.zipWith (fun r b => if b then { r with flags := r.flags ++ [lowestUnused s.prefit_model.jumps] } else r) s.all_toas.rows sel).map (fun r => { r with flags := r.flags.filter (fun f => f ≠ lowestUnused s.prefit_model.jumps) }) } = s.all_toas
      rw [clear_zip _ _ _ hlen hflag]
  · -- component already present
    have hPJt : s.prefit_model.hasPJ = true := by
      rcases hb : s.prefit_model.hasPJ with - | -
      · exact absurd hb hPJ
      · rfl
    have hfind0 := hadd hPJt
    by_cases hn0 : s.prefit_model.jumps.length = 0
    · -- zero-jumps warning branch twice: nothing changes
      have hz := add_jump_zero sel s hPJt hn0
      rw [hz, hz]
      exact ⟨rfl, rfl⟩
    · -- a new jump with the lowest unused id is added, then deleted
      have hflag : ∀ r ∈ s.all_toas.rows, lowestUnused s.prefit_model.jumps ∉ r.flags :=
        fun r hr hmem => hk.2.1 (hwf3 r hr _ hmem)
      have hfind1 : (List.range' 1
            (s.prefit_model.jumps ++ [lowestUnused s.prefit_model.jumps]).length).find?
          (fun n => toasJumped n (List.zipWith
            (fun r b => if b then
                { r with flags := r.flags ++ [lowestUnused s.prefit_model.jumps] }
              else r) s.all_toas.rows sel) == sel)
          = some (lowestUnused s.prefit_model.jumps) := by
        apply find?_range'_some
        · exact hk.1
        · rw [List.length_append]
          have h22 := hk.2.2
          simp only [List.length_singleton]
          omega
        · rw [toasJumped_zip_self _ _ _ hlen hflag]
          exact beq_self_eq_true sel
        · intro j hj1 hjk
          have hne : j ≠ lowestUnused s.prefit_model.jumps := Nat.ne_of_lt hjk
          rw [toasJumped_zip_ne _ _ hne _ _ hlen]
          have hj_in : j ∈ List.range' 1 s.prefit_model.jumps.length := by
            rw [List.mem_range'_1]
            have := hk.2.2
            omega
          have hnone := List.find?_eq_none.mp hfind0 j hj_in
          rcases hb : (toasJumped j s.all_toas.rows == sel) with - | -
          · rfl
          · exact absurd hb hnone
      have hs1 := add_jump_nomatch sel s hPJt hn0 hfind0
      have hs2 := add_jump_match sel
        { s with
          prefit_model := { s.prefit_model with
                            jumps := s.prefit_model.jumps
                              ++ [lowestUnused s.prefit_model.jumps] },
          all_toas := { s.all_toas with
                        rows := List.zipWith
                          (fun r b => if b then
                              { r with flags := r.flags
                                  ++ [lowestUnused s.prefit_model.jumps] }
                            else r) s.all_toas.rows sel },
          postfit_model := if s.fitted then
              s.postfit_model.map (fun pm =>
                { pm with jumps := pm.jumps ++ [lowestUnused s.prefit_model.jumps] })
            else s.postfit_model }
        (lowestUnused s.prefit_model.jumps) hPJt hfind1
      rw [hs1, hs2]
      constructor
      · show (s.prefit_model.jumps ++ [lowestUnused s.prefit_model.jumps]).filter
          (fun j => j ≠ lowestUnused s.prefit_model.jumps) = s.prefit_model.jumps
        exact jumps_restore _ _ hk.2.1
      · show { s.all_toas with rows := (List.zipWith (fun r b => if b then { r with flags := r.flags ++ [lowestUnused s.prefit_model.jumps] } else r) s.all_toas.rows sel).map (fun r => { r with flags := r.flags.filter (fun f => f ≠ lowestUnused s.prefit_model.jumps) }) } = s.all_toas
        rw [clear_zip _ _ _ hlen hflag]

/-- A well-formed two-TOA session without any jump component yet. -/
def c4WitState : PState := mkState (mkTable [mkRec 0 0 0 [], mkRec 1 0 1 []])

/-- Witness for the amended C4: on a fresh session, toggling the same
selection twice restores the (empty) jump set and the TOA flags. -/
theorem claim_C4_witness :
    (add_jump [true, false] (add_jump [true, false] c4WitState)).prefit_model.jumps
      = c4WitState.prefit_model.jumps
    ∧ (add_jump [true, false] (add_jump [true, false] c4WitState)).all_toas
      = c4WitState.all_toas :=
  claim_C4 [true, false] c4WitState ⟨by decide, by decide, by decide⟩
    (by decide) (by decide)

end PintK



